import Mathlib

/-!
# Verification of the scheduled Bluesky dispatch engine (`src/main.py`)

Shallow embedding of the dispatch engine: row normalization, scheduled-time
parsing, due-item selection, thread grouping, embed-resolution policy, and the
per-cycle dispatch orchestration with its idempotency ledger.

Modelling conventions:
* Machine-level effects are made explicit: the remote posting collaborator is
  an oracle (`Client`) giving the outcome of each blob upload and of each
  `send_post` call; an exception raised by `send_post` is an `Except.error`
  carrying the in-memory state at the point of failure (Python's `except`
  in the outer loop observes exactly that state).
* All Python string data is modelled over the ASCII character range; the
  whitespace set used by `str.strip` / regex `\s` is modelled as the ASCII
  whitespace characters.
* `time.sleep` has no observable effect on any modelled state and is omitted.
-/

set_option maxRecDepth 100000

namespace Autoposter

/-! ## Python string primitives -/

/-- ASCII whitespace, as recognized by Python's `str.strip` and regex `\s`
(non-ASCII whitespace characters are outside the modelled input alphabet). -/
def pyIsSpace (c : Char) : Bool :=
  c = ' ' || c = '\t' || c = '\n' || c = '\r' || c = '\x0b' || c = '\x0c'

/-- Python `str.strip()`. -/
def pyStrip (s : String) : String :=
  String.mk (((s.toList.dropWhile pyIsSpace).reverse.dropWhile pyIsSpace).reverse)

/-- Python `str.lower()` (ASCII range). -/
def pyLower (s : String) : String :=
  String.mk (s.toList.map Char.toLower)

/-- Python's `a or b` on strings: `a` if non-empty (truthy), else `b`. -/
def pyOr (a b : String) : String :=
  if a ≠ "" then a else b

/-! ## `seq_int`: first signed integer substring (regex `-?\d+` search) -/

/-- Numeric value of an ASCII digit character. -/
def digitVal (c : Char) : Nat := c.toNat - 48

/-- Value of a digit run, most significant first. -/
def digitsVal (l : List Char) : Nat :=
  l.foldl (fun a c => a * 10 + digitVal c) 0

/-- Whether a list starts with a digit. -/
def headIsDigit : List Char → Bool
  | [] => false
  | c :: _ => c.isDigit

/-- Left-to-right scan for the first match of `-?\d+` (Python
`re.search(r"-?\d+", s)`), returning its integer value. -/
def seqScan : List Char → Option Int
  | [] => none
  | c :: rest =>
    if c.isDigit then
      some (Int.ofNat (digitsVal (c :: rest.takeWhile Char.isDigit)))
    else if c = '-' && headIsDigit rest then
      some (-(Int.ofNat (digitsVal (rest.takeWhile Char.isDigit))))
    else
      seqScan rest

/-- Function `seq_int` from `src/main.py`: value of the first `-?\d+` match anywhere in
the string, or the default if no match. -/
def seq_int (v : String) (dflt : Int) : Int :=
  (seqScan v.toList).getD dflt

/-- The signed-integer substring starting exactly at index `i`, if any:
an optional `'-'` directly followed by a maximal digit run. -/
def signedIntAt (l : List Char) (i : Nat) : Option Int :=
  match l.drop i with
  | [] => none
  | c :: rest =>
    if c.isDigit then
      some (Int.ofNat (digitsVal (c :: rest.takeWhile Char.isDigit)))
    else if c = '-' && headIsDigit rest then
      some (-(Int.ofNat (digitsVal (rest.takeWhile Char.isDigit))))
    else
      none

/-- Specification reading of "the first signed-integer substring occurring
anywhere in the value's string form": the match at the least starting index. -/
def firstSignedInt (l : List Char) : Option Int :=
  (List.range l.length).findSome? (signedIntAt l)

/-! ## `norm_tid`: trim and collapse internal whitespace -/

/-- Collapse every whitespace run to a single space (`re.sub(r"\s+", " ", ·)`);
the flag records whether the previous character was whitespace. -/
def collapseWsAux : Bool → List Char → List Char
  | _, [] => []
  | prevSp, c :: rest =>
    if pyIsSpace c then
      if prevSp then collapseWsAux true rest
      else ' ' :: collapseWsAux true rest
    else c :: collapseWsAux false rest

/-- Function `norm_tid` from `src/main.py`. -/
def norm_tid (s : String) : String :=
  String.mk (collapseWsAux false (pyStrip s).toList)

/-! ## Datetimes and `parse_time` (`datetime.strptime` over the two formats) -/

/-- A naive local datetime, as produced by
`datetime.strptime(...).replace(tzinfo=LOCAL_TZ)`: all parsed values and the
clock `now_local()` carry the same constant timezone, so instants compare by
their naive fields. -/
structure DateTime where
  year : Nat
  month : Nat
  day : Nat
  hour : Nat
  minute : Nat
  second : Nat
deriving DecidableEq, Repr

/-- Three-way comparison on `Nat`. -/
def natCmp (a b : Nat) : Ordering :=
  if a < b then .lt else if b < a then .gt else .eq

/-- Field-lexicographic comparison of datetimes (Python `datetime` comparison
for two values carrying the same `tzinfo`). -/
def dtCmp (a b : DateTime) : Ordering :=
  (natCmp a.year b.year).then <| (natCmp a.month b.month).then <|
    (natCmp a.day b.day).then <| (natCmp a.hour b.hour).then <|
      (natCmp a.minute b.minute).then (natCmp a.second b.second)

def dtLt (a b : DateTime) : Bool := dtCmp a b == .lt

def dtLe (a b : DateTime) : Bool := dtCmp a b != .gt

/-! ### The `_strptime` regular-expression components

Python's `_strptime` compiles each format into a regex built from per-directive
alternation patterns and matches it at the start of the string; alternatives
are tried in the written order with backtracking, and after the first complete
pattern match the remaining input must be empty, then `datetime(...)`
validates the fields.  Each matcher below returns the candidate
(value, rest-of-input) pairs of one directive, in the regex's priority order.
-/

/-- Directive `%Y`: `\d\d\d\d`. -/
def matchY : List Char → List (Nat × List Char)
  | a :: b :: c :: d :: rest =>
    if a.isDigit && b.isDigit && c.isDigit && d.isDigit then
      [(((digitVal a * 10 + digitVal b) * 10 + digitVal c) * 10 + digitVal d, rest)]
    else []
  | _ => []

/-- Directive `%m`: `1[0-2]|0[1-9]|[1-9]`. -/
def matchMon (l : List Char) : List (Nat × List Char) :=
  (match l with
   | '1' :: c :: rest => if '0' ≤ c ∧ c ≤ '2' then [(10 + digitVal c, rest)] else []
   | _ => []) ++
  (match l with
   | '0' :: c :: rest => if '1' ≤ c ∧ c ≤ '9' then [(digitVal c, rest)] else []
   | _ => []) ++
  (match l with
   | c :: rest => if '1' ≤ c ∧ c ≤ '9' then [(digitVal c, rest)] else []
   | _ => [])

/-- Directive `%d`: `3[01]|[12]\d|0[1-9]|[1-9]| [1-9]`. -/
def matchDay (l : List Char) : List (Nat × List Char) :=
  (match l with
   | '3' :: c :: rest => if '0' ≤ c ∧ c ≤ '1' then [(30 + digitVal c, rest)] else []
   | _ => []) ++
  (match l with
   | c :: d :: rest =>
     if ('1' ≤ c ∧ c ≤ '2') ∧ d.isDigit then [(10 * digitVal c + digitVal d, rest)] else []
   | _ => []) ++
  (match l with
   | '0' :: c :: rest => if '1' ≤ c ∧ c ≤ '9' then [(digitVal c, rest)] else []
   | _ => []) ++
  (match l with
   | c :: rest => if '1' ≤ c ∧ c ≤ '9' then [(digitVal c, rest)] else []
   | _ => []) ++
  (match l with
   | ' ' :: c :: rest => if '1' ≤ c ∧ c ≤ '9' then [(digitVal c, rest)] else []
   | _ => [])

/-- Directive `%H`: `2[0-3]|[0-1]\d|\d`. -/
def matchH (l : List Char) : List (Nat × List Char) :=
  (match l with
   | '2' :: c :: rest => if '0' ≤ c ∧ c ≤ '3' then [(20 + digitVal c, rest)] else []
   | _ => []) ++
  (match l with
   | c :: d :: rest =>
     if ('0' ≤ c ∧ c ≤ '1') ∧ d.isDigit then [(10 * digitVal c + digitVal d, rest)] else []
   | _ => []) ++
  (match l with
   | c :: rest => if c.isDigit then [(digitVal c, rest)] else []
   | _ => [])

/-- Directive `%M`: `[0-5]\d|\d`. -/
def matchMin (l : List Char) : List (Nat × List Char) :=
  (match l with
   | c :: d :: rest =>
     if ('0' ≤ c ∧ c ≤ '5') ∧ d.isDigit then [(10 * digitVal c + digitVal d, rest)] else []
   | _ => []) ++
  (match l with
   | c :: rest => if c.isDigit then [(digitVal c, rest)] else []
   | _ => [])

/-- Directive `%S`: `6[0-1]|[0-5]\d|\d` (leap seconds pass the regex and are rejected by
the `datetime` constructor afterwards). -/
def matchS (l : List Char) : List (Nat × List Char) :=
  (match l with
   | '6' :: c :: rest => if '0' ≤ c ∧ c ≤ '1' then [(60 + digitVal c, rest)] else []
   | _ => []) ++
  matchMin l

/-- A literal character of the format. -/
def litC (ch : Char) : List Char → List (List Char)
  | [] => []
  | c :: rest => if c = ch then [rest] else []

/-- A space in the format, compiled by `_strptime` to `\s+`: one or more
whitespace characters (greedy; nothing after it can match whitespace, so the
maximal take is exact). -/
def wsPlus : List Char → List (List Char)
  | [] => []
  | c :: rest => if pyIsSpace c then [rest.dropWhile pyIsSpace] else []

/-- All complete pattern matches of `"%Y-%m-%d %H:%M:%S"` (with `withSec`) or
`"%Y-%m-%d %H:%M"` (without), in backtracking priority order, each with its
unconsumed remainder.  Missing `%S` defaults to `0`. -/
def matchFmt (withSec : Bool) (l : List Char) : List (DateTime × List Char) :=
  (matchY l).flatMap fun (y, l) =>
  (litC '-' l).flatMap fun l =>
  (matchMon l).flatMap fun (mo, l) =>
  (litC '-' l).flatMap fun l =>
  (matchDay l).flatMap fun (d, l) =>
  (wsPlus l).flatMap fun l =>
  (matchH l).flatMap fun (h, l) =>
  (litC ':' l).flatMap fun l =>
  (matchMin l).flatMap fun (mi, l) =>
  if withSec then
    (litC ':' l).flatMap fun l =>
    (matchS l).flatMap fun (s, l) => [(⟨y, mo, d, h, mi, s⟩, l)]
  else [(⟨y, mo, d, h, mi, 0⟩, l)]

def isLeap (y : Nat) : Bool :=
  y % 4 = 0 && (y % 100 ≠ 0 || y % 400 = 0)

def daysInMonth (y m : Nat) : Nat :=
  if m = 2 then (if isLeap y then 29 else 28)
  else if m = 4 ∨ m = 6 ∨ m = 9 ∨ m = 11 then 30
  else 31

/-- The validation performed by the `datetime` constructor (out-of-range
fields raise `ValueError`, which `parse_time` treats as a failed format). -/
def validDT (t : DateTime) : Bool :=
  1 ≤ t.year && t.year ≤ 9999 && 1 ≤ t.month && t.month ≤ 12 &&
  1 ≤ t.day && t.day ≤ daysInMonth t.year t.month &&
  t.hour ≤ 23 && t.minute ≤ 59 && t.second ≤ 59

/-- Model of `datetime.strptime(s, fmt)` for the two formats of `parse_time`, as an
`Option`: the engine takes the first complete pattern match, requires the
whole input consumed ("unconverted data remains" otherwise), then validates
the fields. -/
def strptime (withSec : Bool) (s : String) : Option DateTime :=
  match matchFmt withSec s.toList with
  | [] => none
  | (t, rest) :: _ => if rest.isEmpty && validDT t then some t else none

/-- The ordered format list of `parse_time`:
`("%Y-%m-%d %H:%M:%S", "%Y-%m-%d %H:%M")`. -/
def timeFormats : List Bool := [true, false]

/-- Function `parse_time` from `src/main.py`, with the tzinfo tag made explicit:
empty/whitespace input is rejected up front, then each format is tried in
order and the first success is returned tagged (`dt.replace(tzinfo=LOCAL_TZ)`)
with the configured timezone; total failure returns `none` (with a logged
warning) rather than raising. -/
def parse_time_z {α : Type} (tzinfo : α) (s : String) : Option (DateTime × α) :=
  if pyStrip s = "" then none
  else
    match timeFormats.findSome? (fun w => strptime w (pyStrip s)) with
    | some t => some (t, tzinfo)
    | none => none

/-- Function `parse_time` with the constant timezone tag dropped. -/
def parse_time (s : String) : Option DateTime :=
  (parse_time_z () s).map Prod.fst

/-- Function `parse_time` on an arbitrary cell value: `none` models any non-string
value (the `isinstance(s, str)` guard). -/
def parse_time_of_val : Option String → Option DateTime
  | none => none
  | some s => parse_time s

/-! ## Rows

One sheet record after `fetch_sheet` ensured every recognized column exists:
each field holds the raw cell string (missing cells default to `""`).  The
four image/alt columns are kept as lists accessed with `getD · ""`, mirroring
`row.get(col, "")`. -/

structure Row where
  thread : String
  seq : String
  text : String
  time : String
  delay : String
  status : String
  linkUrl : String
  linkTitle : String
  linkDesc : String
  linkThumb : String
  img1Title : String
  imgs : List String
  alts : List String
deriving DecidableEq, Repr

/-- A record after the in-place normalization in `run_loop`:
`r[COL_THREAD] = norm_tid(...)` and `r[COL_SEQ] = seq_int(...)`; every other
column is left untouched and kept in `row`. -/
structure NRow where
  tid : String
  seq : Int
  row : Row
deriving DecidableEq, Repr

def normalize_row (r : Row) : NRow :=
  ⟨norm_tid r.thread, seq_int r.seq 0, r⟩

/-- Function `row_key` from `src/main.py`, applied (as in `run_loop`) to a normalized
record: `f"{tid}|{seq}|{tim}|{head}"` with the first 24 characters of the
stripped text. -/
def row_key (r : NRow) : String :=
  pyStrip r.tid ++ "|" ++ toString r.seq ++ "|" ++ pyStrip r.row.time ++ "|" ++
    (pyStrip r.row.text).take 24

/-! ## The posting collaborator and embeds -/

/-- Oracle for the remote posting platform: `upload url` is the blob obtained
by fetching `url` and uploading its bytes (`none` models any fetch/upload
failure, which `upload_blob` catches), and `postFail n` tells whether the
`n`-th `send_post` call of the cycle raises. -/
structure Client where
  upload : String → Option String
  postFail : Nat → Bool

/-- An embed attached to a post: an external link card
(`AppBskyEmbedExternal`) or an image gallery (`AppBskyEmbedImages`, each
image an (alt, blob) pair). -/
inductive Embed
  | external (uri title descr : String) (thumb : Option String)
  | images (imgs : List (String × String))
deriving DecidableEq, Repr

/-- Function `upload_blob` from `src/main.py`: empty/whitespace URL gives `None`
without a network call; any failure is caught and gives `None`. -/
def upload_blob (c : Client) (url : String) : Option String :=
  if pyStrip url = "" then none else c.upload (pyStrip url)

/-- Function `image_urls` from `src/main.py`: the stripped, non-empty entries of the
four image-URL columns, in column order. -/
def image_urls (r : Row) : List String :=
  ((List.range 4).map (fun i => pyStrip (r.imgs.getD i ""))).filter (· ≠ "")

/-- Truthiness of an optional string argument (`if thumb_url:`). -/
def optTruthy : Option String → Bool
  | none => false
  | some s => s ≠ ""

/-- Function `make_external_embed` from `src/main.py`: try the explicit thumb URL,
fall back to `fallback_thumb` when that produced no blob; always returns a
link-card embed. -/
def make_external_embed (c : Client) (url title descr : String)
    (thumbUrl fallbackThumb : Option String) : Embed :=
  let t1 : Option String :=
    match thumbUrl with
    | some u => if u ≠ "" then upload_blob c u else none
    | none => none
  let t2 : Option String :=
    match t1 with
    | some b => some b
    | none =>
      match fallbackThumb with
      | some u => if u ≠ "" then upload_blob c u else none
      | none => none
  .external url title descr t2

/-- The gallery-collection loop of `build_embed_for_row`: for each of the four
image columns in order, a non-empty URL whose blob upload succeeds contributes
an (alt, blob) pair with the column-aligned alt text. -/
def gallery_images (c : Client) (r : Row) : List (String × String) :=
  (List.range 4).foldl
    (fun acc i =>
      let url := pyStrip (r.imgs.getD i "")
      if url ≠ "" then
        match upload_blob c url with
        | some blob => acc ++ [(r.alts.getD i "", blob)]
        | none => acc
      else acc)
    []

/-- Function `build_embed_for_row` from `src/main.py`: (1) explicit link URL → card;
(2) exactly one image → card pointing at that image; (3) 2–4 images →
gallery of the successfully uploaded ones, if any; (4) otherwise no embed. -/
def build_embed_for_row (c : Client) (r : Row) : Option Embed :=
  let link_url := pyStrip r.linkUrl
  if link_url ≠ "" then
    let t0 := pyStrip r.linkTitle
    let title := if t0 ≠ "" then t0 else pyStrip (pyOr r.img1Title (r.alts.getD 0 ""))
    let descr := pyStrip r.linkDesc
    let thumb := pyStrip r.linkThumb
    let imgs := image_urls r
    let fall : Option String := if imgs.length = 1 then some (imgs.getD 0 "") else none
    some (make_external_embed c link_url title descr (some thumb) fall)
  else
    let imgs := image_urls r
    if imgs.length = 1 then
      let title := pyStrip (pyOr r.linkTitle (pyOr r.img1Title (r.alts.getD 0 "")))
      some (make_external_embed c (imgs.getD 0 "") title "" none (some (imgs.getD 0 "")))
    else if 2 ≤ imgs.length ∧ imgs.length ≤ 4 then
      let images := gallery_images c r
      if images ≠ [] then some (.images images) else none
    else none

/-! ## Posting, state, and the dispatch cycle -/

/-- One successful `send_post` call: the posted row (ghost annotation
identifying which record produced the call), its embed, the reply reference
passed (`none` for a standalone post), and the strong reference the call
returned. -/
structure PostEv where
  row : NRow
  embed : Option Embed
  reply : Option Nat
  ref : Nat
deriving DecidableEq, Repr

/-- Observable cycle state: the number of `send_post` calls made so far (a
call's index is its strong reference), the successful posting events in
order, the in-memory `state["posted_keys"]` list, and the successive
snapshots written by `save_state`. -/
structure St where
  nposts : Nat
  trace : List PostEv
  keys : List String
  saved : List (List String)
deriving DecidableEq, Repr

/-- Function `post_single` from `src/main.py` (`send_post` + `create_strong_ref`).
A raised exception is `Except.error` carrying the state at the failure. -/
def post_single (c : Client) (r : NRow) (embed : Option Embed)
    (reply : Option Nat) (st : St) : Except St (Nat × St) :=
  if c.postFail st.nposts then .error { st with nposts := st.nposts + 1 }
  else
    .ok (st.nposts,
      { st with
        nposts := st.nposts + 1
        trace := st.trace ++ [⟨r, embed, reply, st.nposts⟩] })

/-- The loop body of `post_thread`: `root` is `root_ref` (reply target
`root_ref if idx > 0 else None`; at index 0 `root_ref` is still `None`), and
the first post's reference becomes the root for all later posts.  The
inter-post `time.sleep(delay)` has no observable effect and is omitted. -/
def post_thread_aux (c : Client) : Option Nat → List NRow → St → Except St St
  | _, [], st => .ok st
  | root, r :: rest, st =>
    match post_single c r (build_embed_for_row c r.row) root st with
    | .error st' => .error st'
    | .ok (ref, st') => post_thread_aux c (some (root.getD ref)) rest st'

/-- Function `post_thread` from `src/main.py`. -/
def post_thread (c : Client) (grp : List NRow) (st : St) : Except St St :=
  post_thread_aux c none grp st

/-- The ledger-append loop: `for gr in grp: if gk not in posted_keys: append`. -/
def append_keys (keys : List String) (ks : List String) : List String :=
  ks.foldl (fun acc k => if k ∈ acc then acc else acc ++ [k]) keys

/-- Function `save_state`: persist the current key list (recorded as a snapshot). -/
def save_snapshot (st : St) : St :=
  { st with saved := st.saved ++ [st.keys] }

/-! ### Thread grouping -/

/-- Append a record to its thread's group, preserving dict insertion order
(`by_thread.setdefault(tid, []).append(r)`). -/
def add_to_group : List (String × List NRow) → NRow → List (String × List NRow)
  | [], r => [(r.tid, [r])]
  | (t, l) :: rest, r =>
    if t = r.tid then (t, l ++ [r]) :: rest else (t, l) :: add_to_group rest r

/-- Stable insertion by sequence: the new element goes after every element
with a smaller-or-equal sequence. -/
def ins_seq (x : NRow) : List NRow → List NRow
  | [] => [x]
  | y :: ys => if y.seq ≤ x.seq then y :: ins_seq x ys else x :: y :: ys

/-- Stable sort by `COL_SEQ` ascending (`list.sort(key=...)` is stable, and a
stable sort's output is unique, so insertion sort models it exactly). -/
def sort_seq (l : List NRow) : List NRow :=
  l.foldl (fun acc x => ins_seq x acc) []

/-- Dict `by_thread` as built in `run_loop`: group all records by normalized
thread id, each group sorted by sequence. -/
def by_thread (rs : List NRow) : List (String × List NRow) :=
  (rs.foldl add_to_group []).map (fun p => (p.1, sort_seq p.2))

/-- Lookup `by_thread.get(tid, dflt)`. -/
def group_get (m : List (String × List NRow)) (tid : String)
    (dflt : List NRow) : List NRow :=
  match m.find? (fun p => p.1 = tid) with
  | some p => p.2
  | none => dflt

/-! ### Due-row selection -/

/-- The due-selection loop of `run_loop`: keep records whose status strips
and lowercases to `"scheduled"`, whose scheduled time parses to an instant
not after `now`, and whose key is not yet in `posted_keys`. -/
def due_rows (keys : List String) (now : DateTime) : List NRow → List NRow
  | [] => []
  | r :: rest =>
    if pyLower (pyStrip r.row.status) ≠ "scheduled" then due_rows keys now rest
    else
      match parse_time r.row.time with
      | none => due_rows keys now rest
      | some t =>
        if dtLt now t then due_rows keys now rest
        else if row_key r ∈ keys then due_rows keys now rest
        else r :: due_rows keys now rest

/-! ### The dispatch loop body -/

/-- The body of `for r in due` in `run_loop`: explicit thread head (`tid` and
`seq == 1`) posts the whole group then records and saves its keys; empty
`tid` posts a singleton; otherwise, with headless fallback enabled and no
explicit head in the group, the whole group is promoted and posted, else the
row waits for its head (no state change). -/
def process_due_row (c : Client) (fb : Bool) (byT : List (String × List NRow))
    (r : NRow) (st : St) : Except St St :=
  if r.tid ≠ "" ∧ r.seq = 1 then
    match post_thread c (group_get byT r.tid [r]) st with
    | .error st' => .error st'
    | .ok st' =>
      .ok (save_snapshot
        { st' with keys := append_keys st'.keys ((group_get byT r.tid [r]).map row_key) })
  else if r.tid = "" then
    match post_single c r (build_embed_for_row c r.row) none st with
    | .error st' => .error st'
    | .ok (_, st') =>
      .ok (save_snapshot { st' with keys := append_keys st'.keys [row_key r] })
  else
    if fb then
      if ¬ (group_get byT r.tid []).any (fun x => x.seq = 1) then
        match post_thread c (group_get byT r.tid []) st with
        | .error st' => .error st'
        | .ok st' =>
          .ok (save_snapshot
            { st' with
              keys := append_keys st'.keys ((group_get byT r.tid []).map row_key) })
      else .ok st
    else .ok st

/-- The `for r in due` loop: an exception from any unit is caught by the
outer `except`, abandoning the remainder of the cycle (`false` marks an
abandoned cycle; the state is the in-memory state the handler observes). -/
def run_cycle_aux (c : Client) (fb : Bool) (byT : List (String × List NRow)) :
    List NRow → St → St × Bool
  | [], st => (st, true)
  | r :: rest, st =>
    match process_due_row c fb byT r st with
    | .ok st' => run_cycle_aux c fb byT rest st'
    | .error st' => (st', false)

/-- One polling cycle of `run_loop` on fetched records `rows`, starting from
persisted keys `keys0` at local time `now`: normalize all rows, group by
thread, select the due rows against the cycle-start ledger, then dispatch
them in order. -/
def run_cycle (c : Client) (fb : Bool) (rows : List Row) (keys0 : List String)
    (now : DateTime) : St × Bool :=
  let nrows := rows.map normalize_row
  let byT := by_thread nrows
  let due := due_rows keys0 now nrows
  run_cycle_aux c fb byT due ⟨0, [], keys0, []⟩

instance {ε α : Type} [DecidableEq ε] [DecidableEq α] : DecidableEq (Except ε α) :=
  fun x y =>
    match x, y with
    | .ok a, .ok b =>
      if h : a = b then .isTrue (by rw [h]) else .isFalse (by simp [h])
    | .error a, .error b =>
      if h : a = b then .isTrue (by rw [h]) else .isFalse (by simp [h])
    | .ok _, .error _ => .isFalse (by simp)
    | .error _, .ok _ => .isFalse (by simp)

/-! ## Concrete fixtures used by the witnesses and counterexamples -/

/-- A sheet row with only the given thread/sequence/text/time/status cells. -/
def mkRow (tid seqs text time status : String) : Row :=
  ⟨tid, seqs, text, time, "", status, "", "", "", "", "", [], []⟩

/-- A collaborator whose `send_post` never raises and whose uploads fail. -/
def okClient : Client := ⟨fun _ => none, fun _ => false⟩

/-- A collaborator whose very first `send_post` call raises. -/
def failClient : Client := ⟨fun _ => none, fun n => n = 0⟩

def now0 : DateTime := ⟨2024, 1, 1, 9, 5, 0⟩

def st0 : St := ⟨0, [], [], []⟩

/-- The spec's headless-fallback scenario: thread `"A"` with sequences 2 and
3, no sequence-1 row, both rows due. -/
def rowA2 : Row := mkRow "A" "2" "x" "2024-01-01 09:00" "Scheduled"

def rowA3 : Row := mkRow "A" "3" "y" "2024-01-01 09:00" "Scheduled"

def nA2 : NRow := normalize_row rowA2

def nA3 : NRow := normalize_row rowA3

def kA2 : String := "A|2|2024-01-01 09:00|x"

def kA3 : String := "A|3|2024-01-01 09:00|y"

def byT0 : List (String × List NRow) := by_thread [nA2, nA3]

/-- The state after the first due row of the headless scenario is processed. -/
def stMid : St :=
  match process_due_row okClient true byT0 nA2 st0 with
  | .ok s => s
  | .error s => s

/-- The state after the second due row of the headless scenario is processed. -/
def stFin : St :=
  match process_due_row okClient true byT0 nA3 stMid with
  | .ok s => s
  | .error s => s

/-- A due singleton row (empty thread id). -/
def nS0 : NRow := normalize_row (mkRow "" "1" "s" "2024-01-01 09:00" "Scheduled")

/-- A due row whose status cell carries surrounding whitespace. -/
def nWs : NRow := normalize_row (mkRow "" "1" "w" "2024-01-01 09:00" " SCHEDULED ")

/-- A row scheduled exactly at `now0`. -/
def nT1 : NRow := normalize_row (mkRow "" "1" "t1" "2024-01-01 09:05:00" "Scheduled")

/-- A row scheduled one second after `now0`. -/
def nT2 : NRow := normalize_row (mkRow "" "1" "t2" "2024-01-01 09:05:01" "Scheduled")

/-- Thread `"B"` with two rows both carrying sequence 1 (duplicate
sequences are reachable raw input). -/
def nB1p : NRow := normalize_row (mkRow "B" "1" "p" "2024-01-01 09:00" "Scheduled")

def nB1q : NRow := normalize_row (mkRow "B" "1" "q" "2024-01-01 09:00" "Scheduled")

/-- Result state of posting the duplicate-sequence group. -/
def stB : St :=
  match post_thread okClient [nB1p, nB1q] st0 with
  | .ok s => s
  | .error s => s

/-- Result state of posting the headless group `[nA2, nA3]` directly. -/
def stC : St :=
  match post_thread okClient [nA2, nA3] st0 with
  | .ok s => s
  | .error s => s

/-- A row with an explicit link URL and three image URLs. -/
def rowL : Row :=
  { mkRow "" "1" "l" "2024-01-01 09:00" "Scheduled" with
    linkUrl := "http://e", imgs := ["u1", "u2", "u3"] }

/-- A row with exactly one image URL and no link URL. -/
def rowI : Row :=
  { mkRow "" "1" "i" "2024-01-01 09:00" "Scheduled" with imgs := ["u1"] }

/-- A row with two image URLs and no link URL. -/
def rowG : Row :=
  { mkRow "" "1" "g" "2024-01-01 09:00" "Scheduled" with
    imgs := ["u1", "u2"], alts := ["a1", "a2"] }

/-- A collaborator for which only the upload of `"u1"` succeeds. -/
def oneUploadClient : Client :=
  ⟨fun u => if u = "u1" then some "b1" else none, fun _ => false⟩

/-! ## Supporting lemmas -/

theorem post_single_error_parts {c : Client} {r : NRow} {e : Option Embed}
    {rep : Option Nat} {st st' : St}
    (h : post_single c r e rep st = .error st') :
    st'.keys = st.keys ∧ st'.saved = st.saved ∧ st'.trace = st.trace := by
  unfold post_single at h
  split at h
  · cases h; exact ⟨rfl, rfl, rfl⟩
  · cases h

theorem post_single_ok_parts {c : Client} {r : NRow} {e : Option Embed}
    {rep : Option Nat} {st st' : St} {ref : Nat}
    (h : post_single c r e rep st = .ok (ref, st')) :
    ref = st.nposts ∧ st'.nposts = st.nposts + 1 ∧ st'.keys = st.keys ∧
    st'.saved = st.saved ∧ st'.trace = st.trace ++ [⟨r, e, rep, st.nposts⟩] := by
  unfold post_single at h
  split at h
  · cases h
  · cases h; exact ⟨rfl, rfl, rfl, rfl, rfl⟩

theorem post_thread_aux_error_parts {c : Client} :
    ∀ {grp : List NRow} {root : Option Nat} {st st' : St},
      post_thread_aux c root grp st = .error st' →
      st'.keys = st.keys ∧ st'.saved = st.saved := by
  intro grp
  induction grp with
  | nil => intro root st st' h; cases h
  | cons r rest ih =>
    intro root st st' h
    unfold post_thread_aux at h
    cases hps : post_single c r (build_embed_for_row c r.row) root st with
    | error st1 =>
      rw [hps] at h; cases h
      exact ⟨(post_single_error_parts hps).1, (post_single_error_parts hps).2.1⟩
    | ok p =>
      obtain ⟨ref, st1⟩ := p
      rw [hps] at h
      have h1 := post_single_ok_parts hps
      have h2 := ih h
      exact ⟨h2.1.trans h1.2.2.1, h2.2.trans h1.2.2.2.1⟩

theorem post_thread_aux_ok_parts {c : Client} :
    ∀ {grp : List NRow} {root : Option Nat} {st st' : St},
      post_thread_aux c root grp st = .ok st' →
      st'.keys = st.keys ∧ st'.saved = st.saved ∧
      ∃ evs, st'.trace = st.trace ++ evs ∧ evs.map (fun e => e.row) = grp := by
  intro grp
  induction grp with
  | nil =>
    intro root st st' h; cases h
    exact ⟨rfl, rfl, [], by simp, rfl⟩
  | cons r rest ih =>
    intro root st st' h
    unfold post_thread_aux at h
    cases hps : post_single c r (build_embed_for_row c r.row) root st with
    | error st1 => rw [hps] at h; cases h
    | ok p =>
      obtain ⟨ref, st1⟩ := p
      rw [hps] at h
      have h1 := post_single_ok_parts hps
      obtain ⟨hk, hs, evs, htr, hrows⟩ := ih h
      refine ⟨hk.trans h1.2.2.1, hs.trans h1.2.2.2.1,
        ⟨r, build_embed_for_row c r.row, root, st.nposts⟩ :: evs, ?_, ?_⟩
      · rw [htr, h1.2.2.2.2]; simp
      · simp [hrows]

theorem post_thread_aux_some_replies {c : Client} {n : Nat} :
    ∀ {grp : List NRow} {st st' : St},
      post_thread_aux c (some n) grp st = .ok st' →
      ∃ evs, st'.trace = st.trace ++ evs ∧ evs.map (fun e => e.row) = grp ∧
        ∀ ev ∈ evs, ev.reply = some n := by
  intro grp
  induction grp with
  | nil =>
    intro st st' h; cases h
    exact ⟨[], by simp, rfl, by simp⟩
  | cons r rest ih =>
    intro st st' h
    unfold post_thread_aux at h
    cases hps : post_single c r (build_embed_for_row c r.row) (some n) st with
    | error st1 => rw [hps] at h; cases h
    | ok p =>
      obtain ⟨ref, st1⟩ := p
      rw [hps] at h
      have h1 := post_single_ok_parts hps
      obtain ⟨evs, htr, hrows, hrep⟩ := ih h
      refine ⟨⟨r, build_embed_for_row c r.row, some n, st.nposts⟩ :: evs, ?_, ?_, ?_⟩
      · rw [htr, h1.2.2.2.2]; simp
      · simp [hrows]
      · intro ev hev
        rcases List.mem_cons.mp hev with hev | hev
        · rw [hev]
        · exact hrep ev hev

theorem post_thread_ok_shape {c : Client} {grp : List NRow} {st st' : St}
    (h : post_thread c grp st = .ok st') :
    ∃ evs, st'.trace = st.trace ++ evs ∧ evs.map (fun e => e.row) = grp ∧
      (evs = [] ∨ ∃ ev0 evs', evs = ev0 :: evs' ∧ ev0.reply = none ∧
        ev0.ref = st.nposts ∧ ∀ ev ∈ evs', ev.reply = some ev0.ref) := by
  cases grp with
  | nil =>
    unfold post_thread post_thread_aux at h; cases h
    exact ⟨[], by simp, rfl, Or.inl rfl⟩
  | cons r rest =>
    unfold post_thread post_thread_aux at h
    cases hps : post_single c r (build_embed_for_row c r.row) none st with
    | error st1 => rw [hps] at h; cases h
    | ok p =>
      obtain ⟨ref, st1⟩ := p
      rw [hps] at h
      have h1 := post_single_ok_parts hps
      obtain ⟨evs, htr, hrows, hrep⟩ := post_thread_aux_some_replies h
      refine ⟨⟨r, build_embed_for_row c r.row, none, st.nposts⟩ :: evs, ?_, ?_,
        Or.inr ⟨_, evs, rfl, rfl, rfl, ?_⟩⟩
      · rw [htr, h1.2.2.2.2]; simp
      · simp [hrows]
      · intro ev hev
        rw [hrep ev hev, h1.1]; rfl

theorem mem_append_keys :
    ∀ {ks keys : List String} {k : String},
      k ∈ append_keys keys ks → k ∈ keys ∨ k ∈ ks := by
  intro ks
  induction ks with
  | nil => intro keys k h; exact Or.inl h
  | cons a t ih =>
    intro keys k h
    simp only [append_keys, List.foldl_cons] at h
    rcases ih h with hk | hk
    · split at hk
      · exact Or.inl hk
      · rcases List.mem_append.mp hk with hk | hk
        · exact Or.inl hk
        · exact Or.inr (by simp at hk; simp [hk])
    · exact Or.inr (List.mem_cons_of_mem a hk)

theorem append_keys_nodup :
    ∀ {ks keys : List String}, keys.Nodup → (append_keys keys ks).Nodup := by
  intro ks
  induction ks with
  | nil => intro keys h; exact h
  | cons a t ih =>
    intro keys h
    simp only [append_keys, List.foldl_cons]
    apply ih
    split
    · exact h
    · simp [List.nodup_append, h]
      assumption

theorem process_due_row_error_parts {c : Client} {fb : Bool}
    {byT : List (String × List NRow)} {r : NRow} {st st' : St}
    (h : process_due_row c fb byT r st = .error st') :
    st'.keys = st.keys ∧ st'.saved = st.saved := by
  unfold process_due_row at h
  split at h
  · cases hpt : post_thread c (group_get byT r.tid [r]) st with
    | error st1 => rw [hpt] at h; cases h; exact post_thread_aux_error_parts hpt
    | ok st1 => rw [hpt] at h; cases h
  · split at h
    · cases hps : post_single c r (build_embed_for_row c r.row) none st with
      | error st1 =>
        rw [hps] at h; cases h
        exact ⟨(post_single_error_parts hps).1, (post_single_error_parts hps).2.1⟩
      | ok p =>
        obtain ⟨ref, st1⟩ := p
        rw [hps] at h; cases h
    · split at h
      · split at h
        · cases hpt : post_thread c (group_get byT r.tid []) st with
          | error st1 => rw [hpt] at h; cases h; exact post_thread_aux_error_parts hpt
          | ok st1 => rw [hpt] at h; cases h
        · cases h
      · cases h

theorem process_due_row_ok_parts {c : Client} {fb : Bool}
    {byT : List (String × List NRow)} {r : NRow} {st st' : St}
    (h : process_due_row c fb byT r st = .ok st') :
    (st'.keys = st.keys ∧ st'.saved = st.saved ∧ st'.trace = st.trace) ∨
    ∃ evs, st'.trace = st.trace ++ evs ∧
      st'.keys = append_keys st.keys (evs.map (fun e => row_key e.row)) ∧
      st'.saved = st.saved ++ [st'.keys] := by
  unfold process_due_row at h
  split at h
  · cases hpt : post_thread c (group_get byT r.tid [r]) st with
    | error st1 => rw [hpt] at h; cases h
    | ok st1 =>
      rw [hpt] at h; cases h
      obtain ⟨hk, hs, evs, htr, hrows⟩ := post_thread_aux_ok_parts hpt
      refine Or.inr ⟨evs, htr, ?_, by simp [save_snapshot, hs]⟩
      simp [save_snapshot, hk, ← hrows, List.map_map, Function.comp_def]
  · split at h
    · cases hps : post_single c r (build_embed_for_row c r.row) none st with
      | error st1 => rw [hps] at h; cases h
      | ok p =>
        obtain ⟨ref, st1⟩ := p
        rw [hps] at h; cases h
        have h1 := post_single_ok_parts hps
        refine Or.inr ⟨[⟨r, build_embed_for_row c r.row, none, st.nposts⟩],
          h1.2.2.2.2, ?_, by simp [save_snapshot, h1.2.2.2.1]⟩
        simp [save_snapshot, h1.2.2.1]
    · split at h
      · split at h
        · cases hpt : post_thread c (group_get byT r.tid []) st with
          | error st1 => rw [hpt] at h; cases h
          | ok st1 =>
            rw [hpt] at h; cases h
            obtain ⟨hk, hs, evs, htr, hrows⟩ := post_thread_aux_ok_parts hpt
            refine Or.inr ⟨evs, htr, ?_, by simp [save_snapshot, hs]⟩
            simp [save_snapshot, hk, ← hrows, List.map_map, Function.comp_def]
        · cases h; exact Or.inl ⟨rfl, rfl, rfl⟩
      · cases h; exact Or.inl ⟨rfl, rfl, rfl⟩

theorem mem_ins_seq {x : NRow} :
    ∀ {l : List NRow} {z : NRow}, z ∈ ins_seq x l ↔ z = x ∨ z ∈ l := by
  intro l
  induction l with
  | nil => intro z; simp [ins_seq]
  | cons y ys ih =>
    intro z
    unfold ins_seq
    split
    · simp only [List.mem_cons, ih]
      tauto
    · simp only [List.mem_cons]

theorem ins_seq_pairwise {x : NRow} :
    ∀ {l : List NRow}, List.Pairwise (fun a b : NRow => a.seq ≤ b.seq) l →
      List.Pairwise (fun a b : NRow => a.seq ≤ b.seq) (ins_seq x l) := by
  intro l
  induction l with
  | nil => intro _; simp [ins_seq]
  | cons y ys ih =>
    intro h
    rw [List.pairwise_cons] at h
    unfold ins_seq
    split
    · rename_i hyx
      rw [List.pairwise_cons]
      refine ⟨?_, ih h.2⟩
      intro z hz
      rcases mem_ins_seq.mp hz with rfl | hz
      · exact hyx
      · exact h.1 z hz
    · rename_i hyx
      rw [List.pairwise_cons]
      refine ⟨?_, List.pairwise_cons.mpr h⟩
      intro z hz
      rcases List.mem_cons.mp hz with rfl | hz
      · omega
      · have := h.1 z hz; omega

theorem sort_seq_pairwise (l : List NRow) :
    List.Pairwise (fun a b : NRow => a.seq ≤ b.seq) (sort_seq l) := by
  have aux : ∀ (t : List NRow) (acc : List NRow),
      List.Pairwise (fun a b : NRow => a.seq ≤ b.seq) acc →
      List.Pairwise (fun a b : NRow => a.seq ≤ b.seq)
        (t.foldl (fun acc x => ins_seq x acc) acc) := by
    intro t
    induction t with
    | nil => intro acc h; exact h
    | cons x xs ih =>
      intro acc h
      simp only [List.foldl_cons]
      exact ih _ (ins_seq_pairwise h)
  exact aux l [] List.Pairwise.nil

theorem pairwise_lt_of_le_nodup {l : List Int}
    (hle : List.Pairwise (· ≤ ·) l) (hnd : l.Nodup) :
    List.Pairwise (· < ·) l :=
  (hle.and hnd).imp fun h => lt_of_le_of_ne h.1 h.2

theorem then_swap (o p : Ordering) : (o.then p).swap = o.swap.then p.swap := by
  cases o <;> rfl

theorem natCmp_swap (a b : Nat) : natCmp b a = (natCmp a b).swap := by
  unfold natCmp
  split_ifs <;> first | rfl | omega

theorem dtCmp_swap (a b : DateTime) : dtCmp b a = (dtCmp a b).swap := by
  unfold dtCmp
  rw [natCmp_swap a.year b.year, natCmp_swap a.month b.month,
    natCmp_swap a.day b.day, natCmp_swap a.hour b.hour,
    natCmp_swap a.minute b.minute, natCmp_swap a.second b.second,
    then_swap, then_swap, then_swap, then_swap, then_swap]

theorem dtLe_eq_not_dtLt (a b : DateTime) : dtLe a b = !dtLt b a := by
  unfold dtLe dtLt
  rw [dtCmp_swap a b]
  cases hc : dtCmp a b <;> rfl

/-! ## Claim theorems -/

/-- C3.  Ledger updates are atomic per dispatch unit: if the unit's posting
raises, its keys are not appended, no snapshot is persisted, and the rest of
the cycle is abandoned with exactly the failure state; if the unit completes,
either nothing was dispatched (a skipped/waiting row) and ledger and
persistence are untouched, or the new key list extends the old one exactly by
the keys of the unit's freshly posted events and is persisted as one snapshot
after the whole unit posted. -/
theorem unit_ledger_atomicity :
    ∀ (c : Client) (fb : Bool) (byT : List (String × List NRow)) (r : NRow)
      (rest : List NRow) (st st' : St),
      (process_due_row c fb byT r st = .error st' →
        st'.keys = st.keys ∧ st'.saved = st.saved ∧
        run_cycle_aux c fb byT (r :: rest) st = (st', false)) ∧
      (process_due_row c fb byT r st = .ok st' →
        run_cycle_aux c fb byT (r :: rest) st = run_cycle_aux c fb byT rest st' ∧
        ((st'.keys = st.keys ∧ st'.saved = st.saved) ∨
          ∃ evs, st'.trace = st.trace ++ evs ∧
            st'.keys = append_keys st.keys (evs.map (fun e => row_key e.row)) ∧
            st'.saved = st.saved ++ [st'.keys] ∧
            ∀ k ∈ st'.keys, k ∈ st.keys ∨ k ∈ evs.map (fun e => row_key e.row))) := by
  intro c fb byT r rest st st'
  constructor
  · intro h
    obtain ⟨hk, hs⟩ := process_due_row_error_parts h
    exact ⟨hk, hs, by simp [run_cycle_aux, h]⟩
  · intro h
    refine ⟨by simp [run_cycle_aux, h], ?_⟩
    rcases process_due_row_ok_parts h with ⟨hk, hs, _⟩ | ⟨evs, htr, hk, hs⟩
    · exact Or.inl ⟨hk, hs⟩
    · exact Or.inr ⟨evs, htr, hk, hs, fun k hkk => mem_append_keys (hk ▸ hkk)⟩

/-- Witness for C3: a singleton unit whose only `send_post` call raises
leaves the ledger and its persisted snapshots untouched and abandons the
cycle in exactly the failure state. -/
theorem unit_ledger_atomicity_instance :
    (⟨1, [], [], []⟩ : St).keys = st0.keys ∧
    (⟨1, [], [], []⟩ : St).saved = st0.saved ∧
    run_cycle_aux failClient true [] [nS0] st0 = (⟨1, [], [], []⟩, false) :=
  (unit_ledger_atomicity failClient true [] nS0 [] st0 ⟨1, [], [], []⟩).1 (by decide)

/-- The `for r in due` loop never breaks distinctness of the in-memory key
list: both outcomes of each unit preserve `Nodup`. -/
theorem run_cycle_aux_keys_nodup {c : Client} {fb : Bool}
    {byT : List (String × List NRow)} :
    ∀ {due : List NRow} {st : St}, st.keys.Nodup →
      ((run_cycle_aux c fb byT due st).1).keys.Nodup := by
  intro due
  induction due with
  | nil => intro st h; exact h
  | cons r rest ih =>
    intro st h
    cases hp : process_due_row c fb byT r st with
    | ok st1 =>
      rw [show run_cycle_aux c fb byT (r :: rest) st = run_cycle_aux c fb byT rest st1 by
        simp [run_cycle_aux, hp]]
      apply ih
      rcases process_due_row_ok_parts hp with ⟨hk, _, _⟩ | ⟨_, _, hk, _⟩
      · exact hk ▸ h
      · exact hk ▸ append_keys_nodup h
    | error st1 =>
      rw [show run_cycle_aux c fb byT (r :: rest) st = (st1, false) by
        simp [run_cycle_aux, hp]]
      exact (process_due_row_error_parts hp).1 ▸ h

/-- C10.  The in-memory ledger key list stays duplicate-free across a whole
dispatch cycle: every key append is guarded by a membership check, so a
`Nodup` loaded `posted_keys` list stays `Nodup`. -/
theorem ledger_keys_nodup_preserved :
    ∀ (c : Client) (fb : Bool) (rows : List Row) (keys0 : List String)
      (now : DateTime), keys0.Nodup →
      ((run_cycle c fb rows keys0 now).1).keys.Nodup := by
  intro c fb rows keys0 now h
  exact run_cycle_aux_keys_nodup h

/-- Witness for C10: the headless double-posting cycle, started from the
duplicate-free ledger `["z"]`, ends with a duplicate-free key list. -/
theorem ledger_keys_nodup_preserved_instance :
    ((run_cycle okClient true [rowA2, rowA3] ["z"] now0).1).keys.Nodup :=
  ledger_keys_nodup_preserved okClient true [rowA2, rowA3] ["z"] now0 (by decide)

/-- C4 (amended).  For a thread group sorted by sequence (as every group
built by `by_thread` is — last conjunct), a completed `post_thread` posts the
members in list order: the sequence values of the appended posting events are
non-decreasing (strictly ascending whenever the group's sequences are
pairwise distinct), the first event is standalone (`reply = none`) and its
reference is the next strong reference, and every later event replies to the
first event's reference — so no reply is submitted before the root reference
exists. -/
theorem post_thread_order_spec :
    (∀ (c : Client) (grp : List NRow) (st st' : St),
      List.Pairwise (fun a b : NRow => a.seq ≤ b.seq) grp →
      post_thread c grp st = .ok st' →
      ∃ evs, st'.trace = st.trace ++ evs ∧ evs.map (fun e => e.row) = grp ∧
        List.Pairwise (· ≤ ·) (evs.map (fun e => e.row.seq)) ∧
        ((evs.map (fun e => e.row.seq)).Nodup →
          List.Pairwise (· < ·) (evs.map (fun e => e.row.seq))) ∧
        (evs = [] ∨ ∃ ev0 evs', evs = ev0 :: evs' ∧ ev0.reply = none ∧
          ev0.ref = st.nposts ∧ ∀ ev ∈ evs', ev.reply = some ev0.ref)) ∧
    ∀ l : List NRow, List.Pairwise (fun a b : NRow => a.seq ≤ b.seq) (sort_seq l) := by
  constructor
  · intro c grp st st' hsort hok
    obtain ⟨evs, htr, hrows, hshape⟩ := post_thread_ok_shape hok
    have hple : List.Pairwise (· ≤ ·) (evs.map fun e => e.row.seq) := by
      rw [← hrows] at hsort
      simpa [List.pairwise_map] using hsort
    exact ⟨evs, htr, hrows, hple, fun hnd => pairwise_lt_of_le_nodup hple hnd, hshape⟩
  · exact sort_seq_pairwise

/-- C4 (counterexample to the claim as stated).  Thread `"B"` holds two due
rows both normalizing to sequence 1 — a ThreadGroup the orchestrator posts
(its head branch fires for each).  `post_thread` posts them with sequence
values `[1, 1]`, which is not strictly ascending, so "posts occur in strictly
ascending sequence order" fails on groups with duplicate sequences. -/
theorem thread_duplicate_seq_not_strictly_ascending :
    due_rows [] now0 [nB1p, nB1q] = [nB1p, nB1q] ∧
    group_get (by_thread [nB1p, nB1q]) "B" [] = [nB1p, nB1q] ∧
    post_thread okClient [nB1p, nB1q] st0 = .ok stB ∧
    stB.trace.map (fun e => e.row.seq) = [1, 1] ∧
    ¬ List.Pairwise (fun a b : Int => a < b) (stB.trace.map (fun e => e.row.seq)) := by
  refine ⟨by decide, by decide, by decide, by decide, ?_⟩
  intro h
  have : (1 : Int) < 1 := by
    have h2 : stB.trace.map (fun e => e.row.seq) = [1, 1] := by decide
    rw [h2] at h
    exact List.rel_of_pairwise_cons h (List.mem_singleton.mpr rfl)
  omega

/-- Witness for C4: posting the sorted distinct-sequence group `[nA2, nA3]`
from the empty state yields the concluded trace shape. -/
theorem post_thread_order_spec_instance :
    ∃ evs, stC.trace = st0.trace ++ evs ∧ evs.map (fun e => e.row) = [nA2, nA3] ∧
      List.Pairwise (· ≤ ·) (evs.map (fun e => e.row.seq)) ∧
      ((evs.map (fun e => e.row.seq)).Nodup →
        List.Pairwise (· < ·) (evs.map (fun e => e.row.seq))) ∧
      (evs = [] ∨ ∃ ev0 evs', evs = ev0 :: evs' ∧ ev0.reply = none ∧
        ev0.ref = st0.nposts ∧ ∀ ev ∈ evs', ev.reply = some ev0.ref) :=
  post_thread_order_spec.1 okClient [nA2, nA3] st0 stC
    (by decide) (by decide)

/-- C5.  Embed resolution is a strict priority: a non-empty `link_url` always
yields a link card with that URL (never a gallery, however many images);
with no link and exactly one image, a link card pointing at that image (with
empty description); and a gallery can only arise with no link and 2–4
images. -/
theorem embed_priority_spec :
    ∀ (c : Client) (r : Row),
      (pyStrip r.linkUrl ≠ "" →
        ∃ t d th, build_embed_for_row c r = some (.external (pyStrip r.linkUrl) t d th)) ∧
      (pyStrip r.linkUrl = "" → (image_urls r).length = 1 →
        ∃ t th, build_embed_for_row c r =
          some (.external ((image_urls r).getD 0 "") t "" th)) ∧
      (∀ l, build_embed_for_row c r = some (.images l) →
        pyStrip r.linkUrl = "" ∧ 2 ≤ (image_urls r).length ∧
          (image_urls r).length ≤ 4) := by
  intro c r
  refine ⟨?_, ?_, ?_⟩
  · intro hl
    unfold build_embed_for_row
    rw [if_pos hl]
    exact ⟨_, _, _, rfl⟩
  · intro hl h1
    unfold build_embed_for_row
    rw [if_neg (by simp [hl]), if_pos h1]
    exact ⟨_, _, rfl⟩
  · intro l h
    unfold build_embed_for_row at h
    by_cases hl : pyStrip r.linkUrl ≠ ""
    · rw [if_pos hl] at h
      simp [make_external_embed] at h
    · rw [if_neg hl] at h
      push_neg at hl
      by_cases h1 : (image_urls r).length = 1
      · rw [if_pos h1] at h
        simp [make_external_embed] at h
      · rw [if_neg h1] at h
        by_cases h24 : 2 ≤ (image_urls r).length ∧ (image_urls r).length ≤ 4
        · exact ⟨hl, h24.1, h24.2⟩
        · rw [if_neg h24] at h
          cases h

/-- Witness for C5: a row with a link URL and three images yields a link
card for the link, and a row with one image and no link yields a link card
for that image. -/
theorem embed_priority_spec_instance :
    (∃ t d th, build_embed_for_row okClient rowL =
      some (.external (pyStrip rowL.linkUrl) t d th)) ∧
    (∃ t th, build_embed_for_row okClient rowI =
      some (.external ((image_urls rowI).getD 0 "") t "" th)) :=
  ⟨(embed_priority_spec okClient rowL).1 (by decide),
   (embed_priority_spec okClient rowI).2.1 (by decide) (by decide)⟩

/-- C6 (counterexample to the claim as stated).  A row whose status cell is
`" SCHEDULED "` is selected as due by the code (which strips before the
case-insensitive compare), yet its status does not compare case-insensitively
equal to `"scheduled"` — so the due set is not exactly the claimed set. -/
theorem due_row_untrimmed_status_counterexample :
    due_rows [] now0 [nWs] = [nWs] ∧ pyLower nWs.row.status ≠ "scheduled" := by
  decide

/-- C6 (amended).  The due set is exactly the rows whose status, after
trimming surrounding whitespace, compares case-insensitively equal to
`"scheduled"`, whose scheduled time parses to an instant less than or equal
to `now`, and whose dispatch key is not in the ledger; the computation is a
pure filter (no side effects, by construction).  The closed conjuncts check
the boundary: a row scheduled exactly at `now0` is due, one scheduled one
second later is not. -/
theorem due_rows_filter_spec :
    (∀ (keys : List String) (now : DateTime) (l : List NRow),
      due_rows keys now l =
        l.filter (fun r =>
          (pyLower (pyStrip r.row.status) == "scheduled") &&
          (match parse_time r.row.time with
           | some t => dtLe t now
           | none => false) &&
          !(decide (row_key r ∈ keys)))) ∧
    due_rows [] now0 [nT1] = [nT1] ∧ due_rows [] now0 [nT2] = [] := by
  refine ⟨?_, by decide, by decide⟩
  intro keys now l
  induction l with
  | nil => rfl
  | cons r rest ih =>
    by_cases hs : pyLower (pyStrip r.row.status) = "scheduled"
    · cases hp : parse_time r.row.time with
      | none => simp [due_rows, hs, hp, ih, List.filter_cons]
      | some t =>
        by_cases hlt : dtLt now t = true
        · have hle : dtLe t now = false := by
            rw [dtLe_eq_not_dtLt, hlt]; rfl
          simp [due_rows, hs, hp, hlt, hle, ih, List.filter_cons]
        · have hlt' : dtLt now t = false := by
            cases h' : dtLt now t
            · rfl
            · exact absurd h' hlt
          have hle : dtLe t now = true := by
            rw [dtLe_eq_not_dtLt, hlt']; rfl
          by_cases hk : row_key r ∈ keys
          · simp [due_rows, hs, hp, hlt', hle, hk, ih, List.filter_cons]
          · simp [due_rows, hs, hp, hlt', hle, hk, ih, List.filter_cons]
    · simp [due_rows, hs, ih, List.filter_cons]

/-- The gallery loop collects, over the four image columns in order, exactly
the pairs (column-aligned alt, blob) of the non-empty URLs whose upload
succeeded. -/
theorem gallery_images_eq_filterMap (c : Client) (r : Row) :
    gallery_images c r =
      (List.range 4).filterMap (fun i =>
        if pyStrip (r.imgs.getD i "") = "" then none
        else
          match upload_blob c (pyStrip (r.imgs.getD i "")) with
          | some b => some (r.alts.getD i "", b)
          | none => none) := by
  have aux : ∀ (l : List Nat) (acc : List (String × String)),
      l.foldl (fun acc i =>
          if pyStrip (r.imgs.getD i "") ≠ "" then
            match upload_blob c (pyStrip (r.imgs.getD i "")) with
            | some blob => acc ++ [(r.alts.getD i "", blob)]
            | none => acc
          else acc) acc =
        acc ++ l.filterMap (fun i =>
          if pyStrip (r.imgs.getD i "") = "" then none
          else
            match upload_blob c (pyStrip (r.imgs.getD i "")) with
            | some b => some (r.alts.getD i "", b)
            | none => none) := by
    intro l
    induction l with
    | nil => intro acc; simp
    | cons i t ih =>
      intro acc
      simp only [List.foldl_cons, List.filterMap_cons]
      by_cases hu : pyStrip (r.imgs.getD i "") = ""
      · rw [if_neg (not_not_intro hu), if_pos hu]
        exact ih acc
      · cases hb : upload_blob c (pyStrip (r.imgs.getD i "")) with
        | none => simp only [if_pos hu, if_neg hu, hb]; exact ih acc
        | some b =>
          simp only [if_pos hu, if_neg hu, hb]
          rw [ih (acc ++ [(r.alts.getD i "", b)]), List.append_assoc]
          rfl
  exact aux (List.range 4) []

/-- C7.  For a row with no link URL and 2–4 image URLs: the gallery contains
exactly the images whose blob upload succeeded, each paired with its
column-aligned alt text (defaulting to `""`); a failed upload is dropped
without raising (`upload_blob` is total); with zero successes the row gets
no embed — and the dispatch call is still made for the row with whatever
embed (possibly none) resulted, succeeding whenever the remote call does. -/
theorem gallery_partial_upload_spec :
    ∀ (c : Client) (r : Row),
      pyStrip r.linkUrl = "" → 2 ≤ (image_urls r).length →
      (image_urls r).length ≤ 4 →
      (gallery_images c r =
        (List.range 4).filterMap (fun i =>
          if pyStrip (r.imgs.getD i "") = "" then none
          else
            match upload_blob c (pyStrip (r.imgs.getD i "")) with
            | some b => some (r.alts.getD i "", b)
            | none => none)) ∧
      (build_embed_for_row c r =
        if gallery_images c r = [] then none
        else some (.images (gallery_images c r))) ∧
      (∀ (nr : NRow) (st : St), c.postFail st.nposts = false →
        post_single c nr (build_embed_for_row c r) none st =
          .ok (st.nposts,
            { st with
              nposts := st.nposts + 1
              trace := st.trace ++
                [⟨nr, build_embed_for_row c r, none, st.nposts⟩] })) := by
  intro c r hl h2 h4
  refine ⟨gallery_images_eq_filterMap c r, ?_, ?_⟩
  · unfold build_embed_for_row
    rw [if_neg (by simp [hl]), if_neg (by omega), if_pos ⟨h2, h4⟩]
    by_cases hg : gallery_images c r = []
    · rw [if_neg (by simp [hg]), if_pos hg]
    · rw [if_pos hg, if_neg hg]
  · intro nr st hf
    unfold post_single
    rw [if_neg (by simp [hf])]

/-- Witness for C7: on a row with two images where only the first upload
succeeds, the embed is the one-image gallery prescribed by the theorem. -/
theorem gallery_partial_upload_spec_instance :
    build_embed_for_row oneUploadClient rowG =
      if gallery_images oneUploadClient rowG = [] then none
      else some (.images (gallery_images oneUploadClient rowG)) :=
  (gallery_partial_upload_spec oneUploadClient rowG (by decide) (by decide)
    (by decide)).2.1

/-- C8.  `parse_time` tries `"%Y-%m-%d %H:%M:%S"` then `"%Y-%m-%d %H:%M"` in
that order on the stripped input and returns the first successful parse;
a non-string value, an empty/whitespace string, or a string matching neither
format yields the never-due `none` (the function is total — no exception can
escape); and the result of a successful parse is tagged with exactly the
configured local timezone. -/
theorem parse_time_format_order_spec :
    parse_time_of_val none = none ∧
    (∀ s : String, pyStrip s = "" → parse_time s = none) ∧
    (∀ (s : String) (t : DateTime), strptime true (pyStrip s) = some t →
      parse_time s = some t) ∧
    (∀ s : String, strptime true (pyStrip s) = none →
      parse_time s = strptime false (pyStrip s)) ∧
    (∀ (α : Type) (tz : α) (s : String) (p : DateTime × α),
      parse_time_z tz s = some p → p.2 = tz) := by
  refine ⟨rfl, ?_, ?_, ?_, ?_⟩
  · intro s hs
    simp [parse_time, parse_time_z, hs]
  · intro s t ht
    have hne : pyStrip s ≠ "" := by
      intro he
      rw [he] at ht
      have h0 : strptime true "" = none := by decide
      rw [h0] at ht
      cases ht
    simp [parse_time, parse_time_z, hne, timeFormats, List.findSome?, ht]
  · intro s ht
    by_cases hs : pyStrip s = ""
    · rw [show parse_time s = none by simp [parse_time, parse_time_z, hs], hs]
      rfl
    · simp only [parse_time, parse_time_z, if_neg hs, timeFormats,
        List.findSome?, ht]
      cases hf : strptime false (pyStrip s) <;> simp [hf]
  · intro α tz s p h
    unfold parse_time_z at h
    split at h
    · cases h
    · rcases hf : timeFormats.findSome? (fun w => strptime w (pyStrip s)) with _ | t
      · rw [hf] at h; cases h
      · rw [hf] at h; cases h; rfl

/-- Witness for C8: a leading-whitespace input parseable by the first format
parses to its value. -/
theorem parse_time_format_order_spec_instance :
    parse_time " 2024-01-01 09:00:05" = some ⟨2024, 1, 1, 9, 0, 5⟩ :=
  parse_time_format_order_spec.2.2.1 " 2024-01-01 09:00:05"
    ⟨2024, 1, 1, 9, 0, 5⟩ (by decide)

/-- Search `re.search(r"-?\d+", ·)`: the left-to-right scanner returns the match at
the least starting index. -/
theorem seqScan_eq_firstSignedInt : ∀ l : List Char, seqScan l = firstSignedInt l := by
  intro l
  induction l with
  | nil => rfl
  | cons c rest ih =>
    unfold firstSignedInt
    rw [List.length_cons, List.range_succ_eq_map, List.findSome?_cons]
    have hmap : ((List.range rest.length).map Nat.succ).findSome?
        (signedIntAt (c :: rest)) =
        (List.range rest.length).findSome? (signedIntAt rest) := by
      have : ∀ t : List Nat, (t.map Nat.succ).findSome? (signedIntAt (c :: rest)) =
          t.findSome? (signedIntAt rest) := by
        intro t
        induction t with
        | nil => rfl
        | cons a u ihu =>
          simp only [List.map_cons, List.findSome?_cons]
          have hsh : signedIntAt (c :: rest) (Nat.succ a) = signedIntAt rest a := rfl
          rw [hsh]
          cases signedIntAt rest a <;> simp [ihu]
      exact this (List.range rest.length)
    rw [hmap]
    have h0 : signedIntAt (c :: rest) 0 =
        (if c.isDigit then
          some (Int.ofNat (digitsVal (c :: rest.takeWhile Char.isDigit)))
        else if c = '-' && headIsDigit rest then
          some (-(Int.ofNat (digitsVal (rest.takeWhile Char.isDigit))))
        else none) := rfl
    rw [h0]
    by_cases hd : c.isDigit = true
    · simp [seqScan, hd]
    · by_cases hm : (c = '-' && headIsDigit rest) = true
      · simp [seqScan, hd, hm]
      · have hd' : c.isDigit = false := by
          cases h : c.isDigit
          · rfl
          · exact absurd h hd
        have hm' : (c = '-' && headIsDigit rest) = false := by
          cases h : (c = '-' && headIsDigit rest)
          · rfl
          · exact absurd h hm
        simp [seqScan, hd', hm']
        rw [ih]
        rfl

/-- C9.  `seq_int` returns the integer denoted by the first signed-integer
substring anywhere in the string (the match at the least starting index,
greedy in its digits) and the default when no such substring exists; in
particular `"Part 2"` normalizes to 2. -/
theorem seq_int_first_signed_spec :
    (∀ (s : String) (d : Int), seq_int s d = (firstSignedInt s.toList).getD d) ∧
    seq_int "Part 2" 0 = 2 := by
  refine ⟨?_, by decide⟩
  intro s d
  unfold seq_int
  rw [seqScan_eq_firstSignedInt]

/-- C1.  The claim says one dispatch cycle posts every member of a fully-due
headless thread exactly once.  Evaluating the cycle on the spec's own
scenario (thread `"A"`, sequences 2 and 3, both due, fallback enabled)
refutes this: the cycle posts the promoted group once per due non-head
member, so the trace is 2, 3, 2, 3 — each member posted twice.  (The
fallback-disabled half of the claim does hold: nothing is posted and the
ledger is unchanged.) -/
theorem headless_group_posts_twice_in_one_cycle :
    (run_cycle okClient true [rowA2, rowA3] [] now0).1.trace.map
        (fun e => (e.row.seq, e.reply)) =
      [(2, none), (3, some 0), (2, none), (3, some 2)] ∧
    (run_cycle okClient false [rowA2, rowA3] [] now0).1.trace = [] ∧
    (run_cycle okClient false [rowA2, rowA3] [] now0).1.keys = [] := by
  decide

/-- C2.  The claim says a key present in the Ledger is never dispatched
again.  In the headless scenario both rows are due; the first due row
promotes and posts the whole group and persists both keys, and the second
due row then triggers `post_thread` on the same group again with no ledger
check, dispatching both recorded keys a second time within the same cycle. -/
theorem recorded_key_redispatched_same_cycle :
    due_rows [] now0 [nA2, nA3] = [nA2, nA3] ∧
    process_due_row okClient true byT0 nA2 st0 = .ok stMid ∧
    stMid.keys = [kA2, kA3] ∧ stMid.saved = [[kA2, kA3]] ∧
    process_due_row okClient true byT0 nA3 stMid = .ok stFin ∧
    (stFin.trace.drop stMid.trace.length).map (fun e => row_key e.row) =
      [kA2, kA3] := by
  decide

end Autoposter
